import Mathlib

/-!
Shallow embedding of the Agentic-Honeypot-API core (session store, extraction
merger, bounded cache, credential rotator, callback policy) together with
proofs about the embedded operations.  Each definition mirrors one function of
the Python source; machine-level details that the source leaves to CPython
(dict iteration order, set iteration order) are noted at the definition site.
-/

namespace Honeypot

/-- Python `s.lower()`.  The inputs considered here are ASCII text plus the
rupee sign, on which Unicode lowercasing agrees with ASCII lowercasing. -/
def pyLower (s : String) : String := ⟨s.toList.map Char.toLower⟩

/-- `needle` occurs at the front of `hay`. -/
def listStartsWith : List Char → List Char → Bool
  | [], _ => true
  | _ :: _, [] => false
  | a :: as, b :: bs => a == b && listStartsWith as bs

/-- `needle` occurs somewhere in `hay` (Python `needle in hay` on strings). -/
def listOccurs (needle : List Char) : List Char → Bool
  | [] => listStartsWith needle []
  | b :: bs => listStartsWith needle (b :: bs) || listOccurs needle bs

/-- Python `needle in hay` for strings. -/
def pyIn (needle hay : String) : Bool := listOccurs needle.toList hay.toList

/-- Python regex `\w` on the ASCII inputs used here: letters, digits, underscore. -/
def isWordChar (c : Char) : Bool := c.isAlphanum || c == '_'

/-- Maximal runs of word characters of a string, in order of appearance
(`acc` holds the current run, reversed). -/
def wordRunsAux (acc : List Char) : List Char → List (List Char)
  | [] => if acc.isEmpty then [] else [acc.reverse]
  | c :: rest =>
    if isWordChar c then wordRunsAux (c :: acc) rest
    else if acc.isEmpty then wordRunsAux [] rest
    else acc.reverse :: wordRunsAux [] rest

def wordRuns (s : String) : List String :=
  (wordRunsAux [] s.toList).map (fun l => (⟨l⟩ : String))

/-- `re.findall(r"\b\d{9,18}\b", msg)` — the `bank_account` pattern of
`intel_extractor.PATTERNS`.  Within a maximal run of word characters the only
word boundaries are its two ends, so a match must cover a whole run; the
matches are therefore exactly the all-digit word runs of length 9 to 18
(a longer digit run has no interior boundary, so it yields no match). -/
def bankAccountMatches (msg : String) : List String :=
  (wordRuns msg).filter
    (fun r => r.toList.all Char.isDigit && 9 ≤ r.length && r.length ≤ 18)

/-- Shape of the `ifsc` pattern `[A-Z]{4}0[A-Z0-9]{6}` (exactly 11 characters). -/
def isIfscShape : List Char → Bool
  | [a, b, c, d, z, e, f, g, h, i, j] =>
    [a, b, c, d].all Char.isUpper && z == '0' &&
      [e, f, g, h, i, j].all (fun c2 => c2.isUpper || c2.isDigit)
  | _ => false

/-- `re.findall(r"\b[A-Z]{4}0[A-Z0-9]{6}\b", msg)`.  All pattern characters are
word characters, so (as for `bankAccountMatches`) a match covers a whole word
run, which must have exactly the 11-character IFSC shape. -/
def ifscMatches (msg : String) : List String :=
  (wordRuns msg).filter (fun r => isIfscShape r.toList)

/-- Character class `[\w\.-]` of the `upi_id` pattern. -/
def isUpiClassChar (c : Char) : Bool := isWordChar c || c == '.' || c == '-'

/-- Word boundary `\b` between an optional previous and next character. -/
def isBoundary (prev next : Option Char) : Bool :=
  (prev.elim false isWordChar) != (next.elim false isWordChar)

/-- Longest run of `[\w\.-]` characters at the front of the input, with the rest. -/
def classRun : List Char → List Char × List Char
  | [] => ([], [])
  | c :: rest =>
    if isUpiClassChar c then
      let (r, rest2) := classRun rest
      (c :: r, rest2)
    else ([], c :: rest)

/-- Greedy backtracking for the trailing `\b` of the `upi_id` pattern: the
longest nonempty prefix of `run` (the maximal class run after `@`) whose end
position is a word boundary; `after` is the character following `run`. -/
def takeBoundary (run : List Char) (after : Option Char) : Option (List Char) :=
  match ((List.range run.length).map (fun i => run.length - i)).find?
      (fun k => isBoundary (run.get? (k - 1))
        (if k = run.length then after else run.get? k)) with
  | some k => some (run.take k)
  | none => none

/-- One match attempt of `\b[\w\.-]+@[\w\.-]+\b` at the current position
(`prev` = preceding character).  The class does not contain `@`, so the greedy
`[\w\.-]+` before `@` must be the maximal class run and cannot backtrack
usefully; the part after `@` backtracks only for the final `\b`.  Returns the
match, the last matched character and the remaining input. -/
def tryUpiMatch (prev : Option Char) (l : List Char) :
    Option (List Char × Option Char × List Char) :=
  let (r1, rest1) := classRun l
  if r1.isEmpty then none
  else if !(isBoundary prev l.head?) then none
  else
    match rest1 with
    | '@' :: rest1b =>
      let (r2, rest2) := classRun rest1b
      if r2.isEmpty then none
      else
        match takeBoundary r2 rest2.head? with
        | some p => some (r1 ++ '@' :: p, p.getLast?, r2.drop p.length ++ rest2)
        | none => none
    | _ => none

/-- Left-to-right non-overlapping scan of `re.findall` for the `upi_id`
pattern; `fuel` bounds the number of scan steps (each step consumes at least
one character). -/
def upiScan : Nat → Option Char → List Char → List String
  | 0, _, _ => []
  | _ + 1, _, [] => []
  | fuel + 1, prev, c :: rest =>
    match tryUpiMatch prev (c :: rest) with
    | some (m, lastc, remaining) => (⟨m⟩ : String) :: upiScan fuel lastc remaining
    | none => upiScan fuel (some c) rest

/-- `re.findall(PATTERNS["upi_id"], msg)` with `upi_id = r"\b[\w\.-]+@[\w\.-]+\b"`. -/
def upiMatches (msg : String) : List String :=
  upiScan (msg.toList.length + 1) none msg.toList

/-- Provider allow-list used by `_extract_with_regex` to filter UPI matches. -/
def upiProviders : List String :=
  ["paytm", "phonepe", "googlepay", "ybl", "oksbi", "okaxis", "okicici"]

/-- The `upiIds` stage of `IntelligenceExtractor._extract_with_regex`: regex
matches kept only when they contain one of the known provider names. -/
def extractUpiIds (msg : String) : List String :=
  (upiMatches msg).filter (fun u => upiProviders.any (fun p => pyIn p (pyLower u)))

/-- The `bankAccounts` stage of `_extract_with_regex`: the 9-to-18-digit regex
matches kept only when longer than 10 digits, followed by the IFSC matches
prefixed with `IFSC:`. -/
def extractBankAccounts (msg : String) : List String :=
  (bankAccountMatches msg).filter (fun a => 10 < a.length)
    ++ (ifscMatches msg).map (fun i => "IFSC:" ++ i)

/-- `SCAM_KEYWORDS` of `intel_extractor.py`. -/
def scamKeywords : List String :=
  ["urgent", "verify", "blocked", "suspended", "immediately",
   "otp", "prize", "winner", "claim", "congratulations",
   "account", "payment", "transfer", "bank", "upi",
   "kyc", "update", "confirm", "refund", "cashback",
   "lottery", "selected", "won", "free", "offer"]

/-- Python `list(set(a + b))`: the distinct values of `a ++ b`.  A Python set
iterates in unspecified order; we fix first-occurrence order, and prove only
order-independent properties about it. -/
def pyUnion (a b : List String) : List String := (a ++ b).dedup

/-- The `suspiciousKeywords` stage of `_extract_with_regex`:
`list(set([k for k in SCAM_KEYWORDS if k in message.lower()]))`. -/
def extractKeywords (msg : String) : List String :=
  (scamKeywords.filter (fun k => pyIn k (pyLower msg))).dedup

/-- `models.response.ExtractedIntelligence`: five per-category value lists. -/
structure ExtractedIntelligence where
  bankAccounts : List String := []
  upiIds : List String := []
  phishingLinks : List String := []
  phoneNumbers : List String := []
  suspiciousKeywords : List String := []
deriving DecidableEq

def emptyIntel : ExtractedIntelligence := {}

/-- `IntelligenceExtractor._merge_intelligence`: per category,
`list(set(regex + llm))`. -/
def mergeIntelligence (r g : ExtractedIntelligence) : ExtractedIntelligence where
  bankAccounts := pyUnion r.bankAccounts g.bankAccounts
  upiIds := pyUnion r.upiIds g.upiIds
  phishingLinks := pyUnion r.phishingLinks g.phishingLinks
  phoneNumbers := pyUnion r.phoneNumbers g.phoneNumbers
  suspiciousKeywords := pyUnion r.suspiciousKeywords g.suspiciousKeywords

/-- `models.intelligence.IntelligenceItem`.  `confidence` is the 0-to-1 score
stored in hundredths, so the source literals 0.95 / 0.85 / 0.75 are the exact
values 95 / 85 / 75 here. -/
structure IntelligenceItem where
  value : String
  confidence : Nat
  source : String
  extracted_at : String
  message_turn : Nat
deriving DecidableEq

/-- One category of `IntelligenceExtractor._create_enhanced_intelligence`:
items found by both passes (confidence 0.95), regex-only (0.75), llm-only
(0.85).  Python iterates over `set(regex) & set(llm)` etc. in unspecified
order; we fix first-occurrence order via `dedup`/`filter`. -/
def enhanceCategory (regexItems llmItems : List String) (ts : String) (turn : Nat) :
    List IntelligenceItem :=
  let bothItems := regexItems.dedup.filter (fun v => llmItems.contains v)
  let regexOnly := regexItems.dedup.filter (fun v => !(llmItems.contains v))
  let llmOnly := llmItems.dedup.filter (fun v => !(regexItems.contains v))
  bothItems.map (fun v => ⟨v, 95, "both", ts, turn⟩)
    ++ regexOnly.map (fun v => ⟨v, 75, "regex", ts, turn⟩)
    ++ llmOnly.map (fun v => ⟨v, 85, "llm", ts, turn⟩)

/-- `models.intelligence.EnhancedIntelligence`. -/
structure EnhancedIntelligence where
  bankAccounts : List IntelligenceItem := []
  upiIds : List IntelligenceItem := []
  phishingLinks : List IntelligenceItem := []
  phoneNumbers : List IntelligenceItem := []
  suspiciousKeywords : List IntelligenceItem := []
deriving DecidableEq

/-- `IntelligenceExtractor._create_enhanced_intelligence` (the timestamp
`datetime.now()` is passed in as `ts`). -/
def createEnhancedIntelligence (r g : ExtractedIntelligence) (ts : String) (turn : Nat) :
    EnhancedIntelligence where
  bankAccounts := enhanceCategory r.bankAccounts g.bankAccounts ts turn
  upiIds := enhanceCategory r.upiIds g.upiIds ts turn
  phishingLinks := enhanceCategory r.phishingLinks g.phishingLinks ts turn
  phoneNumbers := enhanceCategory r.phoneNumbers g.phoneNumbers ts turn
  suspiciousKeywords := enhanceCategory r.suspiciousKeywords g.suspiciousKeywords ts turn

/-! ## utils/cache.py — SimpleCache -/

/-- One cache slot: `self.cache[key] = val` together with
`self.access_count[key] = cnt`.  The two dicts of `SimpleCache` always hold
the same keys in the same insertion order, so we model them as one
insertion-ordered association list. -/
structure CEntry (α : Type) where
  key : String
  val : α
  cnt : Nat
deriving DecidableEq

structure SimpleCache (α : Type) where
  entries : List (CEntry α)
  maxSize : Nat
deriving DecidableEq

/-- `min(self.access_count, key=self.access_count.get)`: Python `min` keeps the
earliest element among those with the minimal value (only a strictly smaller
value replaces the current best). -/
def lruGo {α : Type} (best : String × Nat) : List (CEntry α) → String × Nat
  | [] => best
  | e :: rest => lruGo (if e.cnt < best.2 then (e.key, e.cnt) else best) rest

def lruKey {α : Type} : List (CEntry α) → Option String
  | [] => none
  | e :: rest => some (lruGo (e.key, e.cnt) rest).1

/-- `self.cache[key] = value; self.access_count[key] = 0`: dict assignment
updates an existing key in place, otherwise appends in insertion order. -/
def cacheInsert {α : Type} (l : List (CEntry α)) (k : String) (v : α) : List (CEntry α) :=
  if l.any (fun e => e.key == k) then
    l.map (fun e => if e.key == k then ⟨k, v, 0⟩ else e)
  else l ++ [⟨k, v, 0⟩]

/-- `SimpleCache.set`: evict the entry with the smallest access counter when
at or above capacity, then insert with counter 0.  (On an empty over-capacity
cache Python `min` would raise; that branch is unreachable since capacity is
positive in the source and keeps the no-eviction path.) -/
def SimpleCache.set {α : Type} (c : SimpleCache α) (k : String) (v : α) : SimpleCache α :=
  let l :=
    if c.maxSize ≤ c.entries.length then
      match lruKey c.entries with
      | some k0 => c.entries.eraseP (fun e => e.key == k0)
      | none => c.entries
    else c.entries
  { c with entries := cacheInsert l k v }

/-- `SimpleCache.get`: on a hit, increment the entry's access counter and
return its value; on a miss return `none` (metrics side effects dropped). -/
def SimpleCache.get {α : Type} (c : SimpleCache α) (k : String) : Option α × SimpleCache α :=
  match c.entries.find? (fun e => e.key == k) with
  | some e =>
    (some e.val,
     { c with entries :=
        c.entries.map (fun e2 => if e2.key == k then { e2 with cnt := e2.cnt + 1 } else e2) })
  | none => (none, c)

/-! ## services/session_manager.py -/

/-- `models.request.Message` (timestamps already normalised to strings). -/
structure Message where
  sender : String
  text : String
  timestamp : String
deriving DecidableEq

/-- `SessionData` of `session_manager.py`.  `start_time` is kept as an
abstract tick count (seconds) rather than an ISO string. -/
structure SessionData where
  session_id : String
  start_time : Nat
  scam_detected : Bool
  scam_type : String
  conversation_history : List Message
  extracted_intelligence : ExtractedIntelligence
  message_count : Nat
  agent_notes : List String
deriving DecidableEq

/-- The external key-value store (Upstash Redis), modelled as an
insertion-ordered association list of stored sessions; `SET` overwrites in
place or appends.  TTLs are dropped: no claim here concerns expiry. -/
abbrev Store : Type := List (String × SessionData)

/-- `SessionManager._get_key`. -/
def getKey (sessionId : String) : String := "session:" ++ sessionId

/-- Redis `SET key value`.  The store is an external key-value map with no
observable ordering; we embed it as an association list read through
first-match `find?`, with `SET` prepending the binding and dropping the
shadowed one. -/
def kvSet (st : Store) (k : String) (v : SessionData) : Store :=
  (k, v) :: st.eraseP (fun p => p.1 == k)

/-- `SessionManager.get_session` (the Redis-reachable path; when Redis is
down the source returns `None` exactly as for an absent key). -/
def getSession (st : Store) (sessionId : String) : Option SessionData :=
  (st.find? (fun p => p.1 == getKey sessionId)).map Prod.snd

/-- `EngagementMetrics` of `models/response.py`. -/
structure EngagementMetrics where
  engagementDurationSeconds : Nat
  totalMessagesExchanged : Nat
deriving DecidableEq

/-- `SessionManager.create_session` (`now` stands for `datetime.now()`). -/
def createSession (st : Store) (sessionId : String) (scamDetected : Bool)
    (scamType : String) (now : Nat) : SessionData × Store :=
  let s : SessionData :=
    { session_id := sessionId
      start_time := now
      scam_detected := scamDetected
      scam_type := scamType
      conversation_history := []
      extracted_intelligence := emptyIntel
      message_count := 0
      agent_notes := [] }
  (s, kvSet st (getKey sessionId) s)

/-- `SessionManager.update_session`: re-reads the session and overwrites the
fields carried by the update dict (modelled as the patch function applied to
the re-read session); returns `False` without writing when absent. -/
def updateSession (st : Store) (sessionId : String) (patch : SessionData → SessionData) :
    Bool × Store :=
  match getSession st sessionId with
  | none => (false, st)
  | some s => (true, kvSet st (getKey sessionId) (patch s))

/-- `SessionManager.add_message`: `False` when the session is absent;
otherwise append to the transcript, increment the count, and persist those
two fields through `update_session`. -/
def addMessage (st : Store) (sessionId : String) (m : Message) : Bool × Store :=
  match getSession st sessionId with
  | none => (false, st)
  | some s =>
    let hist := s.conversation_history ++ [m]
    let cnt := s.message_count + 1
    updateSession st sessionId
      (fun s2 => { s2 with conversation_history := hist, message_count := cnt })

/-- `SessionManager.add_intelligence`: per category
`list(set(current + incoming))`, persisted through `update_session`. -/
def addIntelligence (st : Store) (sessionId : String) (intel : ExtractedIntelligence) :
    Bool × Store :=
  match getSession st sessionId with
  | none => (false, st)
  | some s =>
    let cur := mergeIntelligence s.extracted_intelligence intel
    updateSession st sessionId (fun s2 => { s2 with extracted_intelligence := cur })

/-- `SessionManager.add_agent_note`. -/
def addAgentNote (st : Store) (sessionId : String) (note : String) : Bool × Store :=
  match getSession st sessionId with
  | none => (false, st)
  | some s =>
    let notes := s.agent_notes ++ [note]
    updateSession st sessionId (fun s2 => { s2 with agent_notes := notes })

/-- `SessionManager.get_metrics` (`now` stands for `datetime.now()`). -/
def getMetrics (st : Store) (sessionId : String) (now : Nat) : Option EngagementMetrics :=
  (getSession st sessionId).map
    (fun s => { engagementDurationSeconds := now - s.start_time
                totalMessagesExchanged := s.message_count })

/-! ## utils/helpers.py — callback policy -/

/-- `settings.max_conversation_turns` (default, `config.py`). -/
def maxConversationTurns : Nat := 50

/-- The intelligence total of `should_trigger_callback`: the four
non-keyword categories. -/
def totalIntel (i : ExtractedIntelligence) : Nat :=
  i.bankAccounts.length + i.upiIds.length + i.phishingLinks.length + i.phoneNumbers.length

/-- `helpers.should_trigger_callback`, branch for branch. -/
def shouldTriggerCallback (s : SessionData) : Bool :=
  if !s.scam_detected then false
  else if 15 ≤ s.message_count then true
  else if maxConversationTurns ≤ s.message_count then true
  else if 3 ≤ totalIntel s.extracted_intelligence && 10 ≤ s.message_count then true
  else false

/-! ## utils/groq_manager.py — credential rotator -/

/-- `GroqClientManager`: `clients` is the dict `original index ↦ client`
(an initialized client is identified by its original key index), in
insertion order; `currentIndex` is the rotation cursor. -/
structure GroqClientManager where
  apiKeys : List String
  clients : List (Nat × Nat)
  currentIndex : Nat
deriving DecidableEq

/-- `GroqClientManager.__init__`: `ok i` says whether constructing the client
for configured key `i` succeeded (the `try`/`except` around `Groq(...)`);
failed indices are skipped, so `clients` can have index gaps. -/
def initManager (keys : List String) (ok : Nat → Bool) : GroqClientManager where
  apiKeys := keys
  clients := ((List.range keys.length).filter ok).map (fun i => (i, i))
  currentIndex := 0

/-- `GroqClientManager.get_client`: `None` when no clients; otherwise
`self.clients.get(self.current_index)` — a dict lookup that yields `None`
when the cursor value is a gap — then advance the cursor modulo
`len(self.clients)`. -/
def getClient (m : GroqClientManager) : Option Nat × GroqClientManager :=
  if m.clients.isEmpty then (none, m)
  else
    (m.clients.lookup m.currentIndex,
     { m with currentIndex := (m.currentIndex + 1) % m.clients.length })

/-! ## Theorems -/

/-- Claim C10: for every session whose scamDetected flag is false, the
callback policy (`should_trigger_callback`) never evaluates to
should-report, regardless of the session's message count or accumulated
intelligence. -/
theorem trigger_never_fires_without_scam (s : SessionData)
    (h : s.scam_detected = false) : shouldTriggerCallback s = false := by
  simp [shouldTriggerCallback, h]

/-- Witness for C10: a non-scam session with 99 messages and some
intelligence does not trigger. -/
theorem trigger_never_fires_without_scam_witness :
    (({ session_id := "s", start_time := 0, scam_detected := false
        scam_type := "unknown", conversation_history := []
        extracted_intelligence := { upiIds := ["a@paytm", "b@ybl", "c@ybl"] }
        message_count := 99, agent_notes := [] } : SessionData)).scam_detected = false ∧
      shouldTriggerCallback
        { session_id := "s", start_time := 0, scam_detected := false
          scam_type := "unknown", conversation_history := []
          extracted_intelligence := { upiIds := ["a@paytm", "b@ybl", "c@ybl"] }
          message_count := 99, agent_notes := [] } = false :=
  ⟨by decide,
   trigger_never_fires_without_scam
     { session_id := "s", start_time := 0, scam_detected := false
       scam_type := "unknown", conversation_history := []
       extracted_intelligence := { upiIds := ["a@paytm", "b@ybl", "c@ybl"] }
       message_count := 99, agent_notes := [] } (by decide)⟩

/-- Claim C1 counterexample: a session with scamDetected true, one message
and no accumulated intelligence does not trigger the callback policy on the
next evaluation — the policy is not the degenerate
`session.scamDetected` rule. -/
theorem trigger_not_mandatory_counterexample :
    shouldTriggerCallback
      { session_id := "s1", start_time := 0, scam_detected := true
        scam_type := "bank_fraud", conversation_history := []
        extracted_intelligence := emptyIntel, message_count := 1
        agent_notes := [] } = false := by
  decide

/-- Claim C1 amended: `should_trigger_callback` reports a session iff
scamDetected is true and one of the thresholds is reached: at least 15
messages, or at least `max_conversation_turns` messages, or at least 3 items
across the four non-keyword intelligence categories together with at least
10 messages.  A detected scam below all thresholds does not trigger. -/
theorem trigger_threshold_characterisation (s : SessionData) :
    shouldTriggerCallback s = true ↔
      s.scam_detected = true ∧
        (15 ≤ s.message_count ∨ maxConversationTurns ≤ s.message_count ∨
          (3 ≤ totalIntel s.extracted_intelligence ∧ 10 ≤ s.message_count)) := by
  cases h : s.scam_detected <;> simp [shouldTriggerCallback, h]

/-- Claim C2: with two configured credentials of which only the second one
initializes, `clients` is the single-entry dict with key 1 while the cursor
cycles over `0 % 1 = 0`, so `get_client` returns none on every call even
though a client is available.  The first two calls are shown, and the
manager state after a call equals the state before it, so every later call
returns none as well. -/
theorem getClient_none_with_partial_pool :
    (getClient (initManager ["key0", "key1"] (fun i => i == 1))).1 = none ∧
      (getClient ((getClient (initManager ["key0", "key1"] (fun i => i == 1))).2)).1 = none ∧
      ((getClient (initManager ["key0", "key1"] (fun i => i == 1))).2
        = initManager ["key0", "key1"] (fun i => i == 1)) := by
  decide

theorem pyUnion_mem (a b : List String) (v : String) :
    v ∈ pyUnion a b ↔ v ∈ a ∨ v ∈ b := by
  simp [pyUnion]

theorem pyUnion_nodup (a b : List String) : (pyUnion a b).Nodup :=
  List.nodup_dedup _

/-- Claim C5: for every pair of pass results, each of the merger's five
categories holds exactly the set union of the two passes' values for that
category — a value is in the merged category iff it came from one of the two
passes, and the merged category has no duplicates. -/
theorem merge_is_dedup_union (r g : ExtractedIntelligence) (v : String) :
    (v ∈ (mergeIntelligence r g).bankAccounts ↔ v ∈ r.bankAccounts ∨ v ∈ g.bankAccounts) ∧
    (v ∈ (mergeIntelligence r g).upiIds ↔ v ∈ r.upiIds ∨ v ∈ g.upiIds) ∧
    (v ∈ (mergeIntelligence r g).phishingLinks ↔ v ∈ r.phishingLinks ∨ v ∈ g.phishingLinks) ∧
    (v ∈ (mergeIntelligence r g).phoneNumbers ↔ v ∈ r.phoneNumbers ∨ v ∈ g.phoneNumbers) ∧
    (v ∈ (mergeIntelligence r g).suspiciousKeywords ↔
      v ∈ r.suspiciousKeywords ∨ v ∈ g.suspiciousKeywords) ∧
    (mergeIntelligence r g).bankAccounts.Nodup ∧
    (mergeIntelligence r g).upiIds.Nodup ∧
    (mergeIntelligence r g).phishingLinks.Nodup ∧
    (mergeIntelligence r g).phoneNumbers.Nodup ∧
    (mergeIntelligence r g).suspiciousKeywords.Nodup :=
  ⟨pyUnion_mem _ _ _, pyUnion_mem _ _ _, pyUnion_mem _ _ _, pyUnion_mem _ _ _,
   pyUnion_mem _ _ _, pyUnion_nodup _ _, pyUnion_nodup _ _, pyUnion_nodup _ _,
   pyUnion_nodup _ _, pyUnion_nodup _ _⟩

/-- Filtering a duplicate-free list with a predicate that only `v` can
satisfy leaves `[v]` or `[]` according to whether `v` qualifies. -/
theorem nodup_filter_value {l : List String} (hl : l.Nodup) (p : String → Bool) (v : String)
    (hp : ∀ a, p a = true → a = v) :
    l.filter p = if p v = true ∧ v ∈ l then [v] else [] := by
  induction l with
  | nil => simp
  | cons a t ih =>
    rcases List.nodup_cons.mp hl with ⟨ha, ht⟩
    by_cases hpa : p a = true
    · have hav : a = v := hp a hpa
      subst hav
      have htnil : t.filter p = [] := by
        rw [List.filter_eq_nil_iff]
        intro b hb hpb
        exact ha ((hp b hpb) ▸ hb)
      simp [List.filter_cons, hpa, htnil]
    · have := ih ht
      by_cases hva : v = a
      · subst hva
        simp [List.filter_cons, hpa, this, ha]
      · simp [List.filter_cons, hpa, this, hva, Ne.symm hva]

theorem enhanceCategory_filter_both (p q : List String) (ts : String) (turn : Nat) (v : String)
    (hp : v ∈ p) (hq : v ∈ q) :
    (enhanceCategory p q ts turn).filter (fun it => it.value == v)
      = [⟨v, 95, "both", ts, turn⟩] := by
  unfold enhanceCategory
  rw [List.filter_append, List.filter_append, List.filter_map, List.filter_map, List.filter_map]
  rw [List.filter_filter, List.filter_filter, List.filter_filter]
  rw [nodup_filter_value (List.nodup_dedup p) _ v ?hp1,
      nodup_filter_value (List.nodup_dedup p) _ v ?hp2,
      nodup_filter_value (List.nodup_dedup q) _ v ?hp3]
  case hp1 =>
    intro a h
    have h2 := ((Bool.and_eq_true _ _).mp h).1
    simp only [Function.comp_apply] at h2
    exact eq_of_beq h2
  case hp2 =>
    intro a h
    have h2 := ((Bool.and_eq_true _ _).mp h).1
    simp only [Function.comp_apply] at h2
    exact eq_of_beq h2
  case hp3 =>
    intro a h
    have h2 := ((Bool.and_eq_true _ _).mp h).1
    simp only [Function.comp_apply] at h2
    exact eq_of_beq h2
  simp [hp, hq, List.contains]

theorem enhanceCategory_filter_regex_only (p q : List String) (ts : String) (turn : Nat)
    (v : String) (hp : v ∈ p) (hq : v ∉ q) :
    (enhanceCategory p q ts turn).filter (fun it => it.value == v)
      = [⟨v, 75, "regex", ts, turn⟩] := by
  unfold enhanceCategory
  rw [List.filter_append, List.filter_append, List.filter_map, List.filter_map, List.filter_map]
  rw [List.filter_filter, List.filter_filter, List.filter_filter]
  rw [nodup_filter_value (List.nodup_dedup p) _ v ?hp1,
      nodup_filter_value (List.nodup_dedup p) _ v ?hp2,
      nodup_filter_value (List.nodup_dedup q) _ v ?hp3]
  case hp1 =>
    intro a h
    have h2 := ((Bool.and_eq_true _ _).mp h).1
    simp only [Function.comp_apply] at h2
    exact eq_of_beq h2
  case hp2 =>
    intro a h
    have h2 := ((Bool.and_eq_true _ _).mp h).1
    simp only [Function.comp_apply] at h2
    exact eq_of_beq h2
  case hp3 =>
    intro a h
    have h2 := ((Bool.and_eq_true _ _).mp h).1
    simp only [Function.comp_apply] at h2
    exact eq_of_beq h2
  simp [hp, hq, List.contains]

theorem enhanceCategory_filter_llm_only (p q : List String) (ts : String) (turn : Nat)
    (v : String) (hp : v ∉ p) (hq : v ∈ q) :
    (enhanceCategory p q ts turn).filter (fun it => it.value == v)
      = [⟨v, 85, "llm", ts, turn⟩] := by
  unfold enhanceCategory
  rw [List.filter_append, List.filter_append, List.filter_map, List.filter_map, List.filter_map]
  rw [List.filter_filter, List.filter_filter, List.filter_filter]
  rw [nodup_filter_value (List.nodup_dedup p) _ v ?hp1,
      nodup_filter_value (List.nodup_dedup p) _ v ?hp2,
      nodup_filter_value (List.nodup_dedup q) _ v ?hp3]
  case hp1 =>
    intro a h
    have h2 := ((Bool.and_eq_true _ _).mp h).1
    simp only [Function.comp_apply] at h2
    exact eq_of_beq h2
  case hp2 =>
    intro a h
    have h2 := ((Bool.and_eq_true _ _).mp h).1
    simp only [Function.comp_apply] at h2
    exact eq_of_beq h2
  case hp3 =>
    intro a h
    have h2 := ((Bool.and_eq_true _ _).mp h).1
    simp only [Function.comp_apply] at h2
    exact eq_of_beq h2
  simp [hp, hq, List.contains]

/-- Claim C6: in the confidence-scored merge, a value found by both passes
yields exactly one item, tagged source "both" with confidence 0.95 (here 95
hundredths); a value found only by the pattern pass yields exactly one item
with confidence 0.75 tagged "regex"; a value found only by the generative
pass yields exactly one item with confidence 0.85 tagged "llm" — and
`_create_enhanced_intelligence` applies this categorywise merge to each of
the five categories of the two pass results. -/
theorem enhanced_confidence_tiers (p q : List String) (ts : String) (turn : Nat) (v : String)
    (r g : ExtractedIntelligence) :
    ((v ∈ p ∧ v ∈ q) → (enhanceCategory p q ts turn).filter (fun it => it.value == v)
        = [⟨v, 95, "both", ts, turn⟩]) ∧
    ((v ∈ p ∧ v ∉ q) → (enhanceCategory p q ts turn).filter (fun it => it.value == v)
        = [⟨v, 75, "regex", ts, turn⟩]) ∧
    ((v ∉ p ∧ v ∈ q) → (enhanceCategory p q ts turn).filter (fun it => it.value == v)
        = [⟨v, 85, "llm", ts, turn⟩]) ∧
    createEnhancedIntelligence r g ts turn =
      { bankAccounts := enhanceCategory r.bankAccounts g.bankAccounts ts turn
        upiIds := enhanceCategory r.upiIds g.upiIds ts turn
        phishingLinks := enhanceCategory r.phishingLinks g.phishingLinks ts turn
        phoneNumbers := enhanceCategory r.phoneNumbers g.phoneNumbers ts turn
        suspiciousKeywords :=
          enhanceCategory r.suspiciousKeywords g.suspiciousKeywords ts turn } :=
  ⟨fun h => enhanceCategory_filter_both p q ts turn v h.1 h.2,
   fun h => enhanceCategory_filter_regex_only p q ts turn v h.1 h.2,
   fun h => enhanceCategory_filter_llm_only p q ts turn v h.1 h.2,
   rfl⟩

/-- Witness for C6: the three confidence tiers realised on concrete inputs. -/
theorem enhanced_confidence_tiers_witness :
    (enhanceCategory ["a"] ["a"] "t" 1).filter (fun it => it.value == "a")
        = [⟨"a", 95, "both", "t", 1⟩] ∧
      (enhanceCategory ["b"] ["c"] "t" 1).filter (fun it => it.value == "b")
        = [⟨"b", 75, "regex", "t", 1⟩] ∧
      (enhanceCategory ["b"] ["c"] "t" 1).filter (fun it => it.value == "c")
        = [⟨"c", 85, "llm", "t", 1⟩] :=
  ⟨(enhanced_confidence_tiers ["a"] ["a"] "t" 1 "a" emptyIntel emptyIntel).1
      ⟨by decide, by decide⟩,
   (enhanced_confidence_tiers ["b"] ["c"] "t" 1 "b" emptyIntel emptyIntel).2.1
      ⟨by decide, by decide⟩,
   (enhanced_confidence_tiers ["b"] ["c"] "t" 1 "c" emptyIntel emptyIntel).2.2.1
      ⟨by decide, by decide⟩⟩

/-- A sequence of `set` calls on a cache (inserting key-value pairs in
order), as in repeated `SimpleCache.set` use by the extractor. -/
def insertAll {α : Type} (c : SimpleCache α) : List (String × α) → SimpleCache α
  | [] => c
  | p :: ps => insertAll (c.set p.1 p.2) ps

theorem insertAll_snoc {α : Type} (c : SimpleCache α) (xs : List (String × α))
    (x : String × α) :
    insertAll c (xs ++ [x]) = (insertAll c xs).set x.1 x.2 := by
  induction xs generalizing c with
  | nil => simp [insertAll]
  | cons y t ih => simp [insertAll, ih]

theorem lruGo_zero {α : Type} (l : List (CEntry α)) (k : String) :
    lruGo (k, 0) l = (k, 0) := by
  induction l with
  | nil => rfl
  | cons e t ih => simp [lruGo, ih]

/-- Below capacity and with fresh distinct keys, `set` never evicts: the
entries are exactly the inserted pairs with counters 0. -/
theorem insertAll_fill {α : Type} (ps : List (String × α)) (c : SimpleCache α)
    (hcap : c.entries.length + ps.length ≤ c.maxSize)
    (hnd : (c.entries.map CEntry.key ++ ps.map Prod.fst).Nodup) :
    (insertAll c ps).entries = c.entries ++ ps.map (fun p => (⟨p.1, p.2, 0⟩ : CEntry α)) ∧
    (insertAll c ps).maxSize = c.maxSize := by
  induction ps generalizing c with
  | nil => simp [insertAll]
  | cons p t ih =>
    have hlen : ¬ (c.maxSize ≤ c.entries.length) := by
      simp at hcap
      omega
    have hdisj := (List.nodup_append.mp hnd).2.2
    have hnotmem : c.entries.any (fun e => e.key == p.1) = false := by
      rw [← Bool.not_eq_true, List.any_eq_true]
      rintro ⟨e, he, hkey⟩
      exact hdisj (List.mem_map_of_mem CEntry.key he) (by simp [eq_of_beq hkey])
    have hset : (c.set p.1 p.2).entries = c.entries ++ [⟨p.1, p.2, 0⟩] := by
      simp [SimpleCache.set, hlen, cacheInsert, hnotmem]
    have hms : (c.set p.1 p.2).maxSize = c.maxSize := by
      simp [SimpleCache.set, hlen, cacheInsert, hnotmem]
    have hcap2 : (c.set p.1 p.2).entries.length + t.length ≤ (c.set p.1 p.2).maxSize := by
      rw [hset, hms]
      simp at hcap ⊢
      omega
    have hnd2 : ((c.set p.1 p.2).entries.map CEntry.key ++ t.map Prod.fst).Nodup := by
      rw [hset]
      simpa [List.append_assoc] using hnd
    have := ih _ hcap2 hnd2
    rw [insertAll] at *
    refine ⟨?_, by rw [this.2, hms]⟩
    rw [this.1, hset]
    simp [List.append_assoc]

/-- Python `min` over the access counters returns a key holding a minimal
counter (`lruGo` keeps the earliest minimum). -/
theorem lruGo_spec {α : Type} (l : List (CEntry α)) (best : String × Nat) :
    ((lruGo best l) = best ∨ ∃ e ∈ l, lruGo best l = (e.key, e.cnt)) ∧
    (lruGo best l).2 ≤ best.2 ∧ ∀ e ∈ l, (lruGo best l).2 ≤ e.cnt := by
  induction l generalizing best with
  | nil => simp [lruGo]
  | cons e t ih =>
    rw [lruGo]
    by_cases h : e.cnt < best.2
    · have := ih (e.key, e.cnt)
      simp only [h, if_pos]
      refine ⟨?_, ?_, ?_⟩
      · rcases this.1 with h1 | ⟨e2, he2, h2⟩
        · exact Or.inr ⟨e, by simp, h1⟩
        · exact Or.inr ⟨e2, by simp [he2], h2⟩
      · exact le_trans this.2.1 (le_of_lt h)
      · intro e2 he2
        rcases List.mem_cons.mp he2 with rfl | hm
        · exact this.2.1
        · exact this.2.2 e2 hm
    · have := ih best
      simp only [h, if_neg, if_false]
      refine ⟨?_, this.2.1, ?_⟩
      · rcases this.1 with h1 | ⟨e2, he2, h2⟩
        · exact Or.inl h1
        · exact Or.inr ⟨e2, by simp [he2], h2⟩
      · intro e2 he2
        rcases List.mem_cons.mp he2 with rfl | hm
        · exact le_trans this.2.1 (Nat.le_of_not_lt h)
        · exact this.2.2 e2 hm

theorem cacheInsert_find {α : Type} (l : List (CEntry α)) (k : String) (v : α) :
    (cacheInsert l k v).find? (fun e => e.key == k) = some (⟨k, v, 0⟩ : CEntry α) := by
  induction l with
  | nil => simp [cacheInsert, List.find?]
  | cons e t ih =>
    by_cases he : (e.key == k) = true
    · have he2 : e.key = k := eq_of_beq he
      simp [cacheInsert, List.any_cons, he, he2, List.find?]
    · have he2 : ¬ (e.key = k) := fun h => he (by simp [h])
      by_cases ht : t.any (fun e2 => e2.key == k)
      · simp [cacheInsert, List.any_cons, he, ht, List.find?, he2] at ih ⊢
        exact ih
      · simp [cacheInsert, List.any_cons, he, ht, List.find?, he2] at ih ⊢
        exact ih

/-- Inserting `C + 1` distinct keys into an empty cache of capacity `C`
leaves exactly the last `C` of them, each with counter 0: the first C fill
without eviction, and the last insertion evicts the first-inserted key
(all counters 0, ties broken by the first dict entry). -/
theorem cache_fill_then_evict {α : Type} (C : Nat) (p0 plast : String × α)
    (mid : List (String × α)) (hC : mid.length + 1 = C)
    (hnd : ((p0 :: (mid ++ [plast])).map Prod.fst).Nodup) :
    (insertAll (⟨[], C⟩ : SimpleCache α) (p0 :: (mid ++ [plast]))).entries
      = (mid ++ [plast]).map (fun p => (⟨p.1, p.2, 0⟩ : CEntry α)) := by
  have hsnoc : p0 :: (mid ++ [plast]) = (p0 :: mid) ++ [plast] := by simp
  rw [hsnoc, insertAll_snoc]
  have hndfront : (([] : List (CEntry α)).map CEntry.key ++ (p0 :: mid).map Prod.fst).Nodup := by
    simp only [List.map_nil, List.nil_append]
    have h : ((p0 :: mid) ++ [plast]).map Prod.fst = (p0 :: mid).map Prod.fst ++ [plast.1] := by
      simp
    rw [hsnoc, h] at hnd
    exact (List.nodup_append.mp hnd).1
  have hfill := insertAll_fill (p0 :: mid) (⟨[], C⟩ : SimpleCache α)
    (by simp; omega) hndfront
  rw [List.nil_append] at hfill
  have hlen : (insertAll (⟨[], C⟩ : SimpleCache α) (p0 :: mid)).maxSize
      ≤ (insertAll (⟨[], C⟩ : SimpleCache α) (p0 :: mid)).entries.length := by
    rw [hfill.1, hfill.2]
    simp
    omega
  have hlru : lruKey (insertAll (⟨[], C⟩ : SimpleCache α) (p0 :: mid)).entries
      = some p0.1 := by
    rw [hfill.1]
    simp only [List.map_cons]
    rw [lruKey]
    rw [lruGo_zero]
  have hnd1 := hnd
  rw [List.map_cons] at hnd1
  have hpl : plast.1 ∉ mid.map Prod.fst := by
    have h2 := (List.nodup_cons.mp hnd1).2
    rw [List.map_append] at h2
    exact fun h => (List.nodup_append.mp h2).2.2 h (by simp)
  rw [SimpleCache.set]
  simp only [hlen, if_pos, hlru]
  rw [hfill.1]
  simp only [List.map_cons]
  rw [List.eraseP_cons_of_pos (by simp)]
  have hnotany : (mid.map (fun p => (⟨p.1, p.2, 0⟩ : CEntry α))).any
      (fun e => e.key == plast.1) = false := by
    rw [← Bool.not_eq_true, List.any_eq_true]
    rintro ⟨e, he, hkey⟩
    rcases List.mem_map.mp he with ⟨q, hq, rfl⟩
    have hq1 : q.1 = plast.1 := by simpa using hkey
    exact hpl (hq1 ▸ List.mem_map_of_mem Prod.fst hq)
  rw [cacheInsert]
  simp [hnotany]

/-- On a cache at or above capacity, `set` first removes the entry named by
`lruKey` — a key carrying a minimal access counter — and then inserts. -/
theorem evict_minimal {α : Type} (c : SimpleCache α) (k : String) (v : α)
    (e0 : CEntry α) (rest : List (CEntry α)) (hc : c.entries = e0 :: rest)
    (hfull : c.maxSize ≤ c.entries.length) :
    ∃ k0, lruKey c.entries = some k0 ∧
      (∃ e ∈ c.entries, e.key = k0 ∧ ∀ e2 ∈ c.entries, e.cnt ≤ e2.cnt) ∧
      (c.set k v).entries = cacheInsert (c.entries.eraseP (fun e => e.key == k0)) k v := by
  refine ⟨(lruGo (e0.key, e0.cnt) rest).1, ?_, ?_, ?_⟩
  · rw [hc, lruKey]
  · have hspec := lruGo_spec rest (e0.key, e0.cnt)
    rcases hspec.1 with h1 | ⟨e2, he2, h2⟩
    · refine ⟨e0, by rw [hc]; simp, by rw [h1], ?_⟩
      intro e2 he2
      rw [hc] at he2
      rcases List.mem_cons.mp he2 with rfl | hm
      · exact le_refl _
      · have := hspec.2.2 e2 hm
        rw [h1] at this
        exact this
    · refine ⟨e2, by rw [hc]; exact List.mem_cons_of_mem _ he2, by rw [h2], ?_⟩
      intro e3 he3
      have hcnt : (lruGo (e0.key, e0.cnt) rest).2 = e2.cnt := by rw [h2]
      rw [hc] at he3
      rcases List.mem_cons.mp he3 with rfl | hm
      · rw [← hcnt]; exact hspec.2.1
      · rw [← hcnt]; exact hspec.2.2 e3 hm
  · have hfull2 : c.maxSize ≤ rest.length + 1 := by
      rw [hc] at hfull
      simpa using hfull
    simp [SimpleCache.set, hfull2, hc, lruKey]

theorem set_fresh_counter {α : Type} (c2 : SimpleCache α) (k : String) (v : α) :
    (c2.set k v).entries.find? (fun e => e.key == k) = some (⟨k, v, 0⟩ : CEntry α) := by
  rw [SimpleCache.set]
  exact cacheInsert_find _ k v

/-- Claim C7: (a) after inserting C+1 distinct keys into an initially empty
cache of capacity C with no intervening get, the first-inserted key is
evicted and the remaining C keys are all present; (b) a set on any cache at
or above capacity first evicts an entry carrying the smallest access
counter; (c) a newly inserted entry's access counter starts at 0. -/
theorem bounded_cache_lru {α : Type} (C : Nat) (p0 plast : String × α)
    (mid : List (String × α)) (hC : mid.length + 1 = C)
    (hnd : ((p0 :: (mid ++ [plast])).map Prod.fst).Nodup)
    (c : SimpleCache α) (k : String) (v : α)
    (e0 : CEntry α) (rest : List (CEntry α)) (hc : c.entries = e0 :: rest)
    (hfull : c.maxSize ≤ c.entries.length) :
    ((insertAll (⟨[], C⟩ : SimpleCache α) (p0 :: (mid ++ [plast]))).entries
        = (mid ++ [plast]).map (fun p => (⟨p.1, p.2, 0⟩ : CEntry α)) ∧
      p0.1 ∉ (insertAll (⟨[], C⟩ : SimpleCache α)
        (p0 :: (mid ++ [plast]))).entries.map CEntry.key ∧
      ∀ q ∈ mid ++ [plast], q.1 ∈ (insertAll (⟨[], C⟩ : SimpleCache α)
        (p0 :: (mid ++ [plast]))).entries.map CEntry.key) ∧
    (∃ k0, lruKey c.entries = some k0 ∧
      (∃ e ∈ c.entries, e.key = k0 ∧ ∀ e2 ∈ c.entries, e.cnt ≤ e2.cnt) ∧
      (c.set k v).entries = cacheInsert (c.entries.eraseP (fun e => e.key == k0)) k v) ∧
    (∀ c2 : SimpleCache α, (c2.set k v).entries.find? (fun e => e.key == k)
        = some (⟨k, v, 0⟩ : CEntry α)) := by
  refine ⟨⟨cache_fill_then_evict C p0 plast mid hC hnd, ?_, ?_⟩,
          evict_minimal c k v e0 rest hc hfull,
          fun c2 => set_fresh_counter c2 k v⟩
  · rw [cache_fill_then_evict C p0 plast mid hC hnd, List.map_map]
    intro hmem
    have hm2 : p0.1 ∈ (mid ++ [plast]).map Prod.fst := by simpa using hmem
    have hnd1 := hnd
    rw [List.map_cons] at hnd1
    exact (List.nodup_cons.mp hnd1).1 hm2
  · intro q hq
    rw [cache_fill_then_evict C p0 plast mid hC hnd, List.map_map]
    simpa using List.mem_map_of_mem Prod.fst hq

/-- Witness for C7 with capacity 2: keys a, b, c inserted into an empty
cache (a evicted, b and c present), and a concrete full cache whose
lowest-counter entry y is evicted by a further set. -/
theorem bounded_cache_lru_witness :
    ((insertAll (⟨[], 2⟩ : SimpleCache Nat) (("a", 1) :: ([("b", 2)] ++ [("c", 3)]))).entries
        = (([("b", 2)] ++ [("c", 3)]) : List (String × Nat)).map
            (fun p => (⟨p.1, p.2, 0⟩ : CEntry Nat)) ∧
      ("a", (1 : Nat)).1 ∉ (insertAll (⟨[], 2⟩ : SimpleCache Nat)
        (("a", 1) :: ([("b", 2)] ++ [("c", 3)]))).entries.map CEntry.key ∧
      ∀ q ∈ [("b", 2)] ++ [("c", (3 : Nat))], q.1 ∈ (insertAll (⟨[], 2⟩ : SimpleCache Nat)
        (("a", 1) :: ([("b", 2)] ++ [("c", 3)]))).entries.map CEntry.key) ∧
    (∃ k0, lruKey (⟨[⟨"x", 9, 5⟩, ⟨"y", 8, 2⟩], 2⟩ : SimpleCache Nat).entries = some k0 ∧
      (∃ e ∈ (⟨[⟨"x", 9, 5⟩, ⟨"y", 8, 2⟩], 2⟩ : SimpleCache Nat).entries, e.key = k0 ∧
        ∀ e2 ∈ (⟨[⟨"x", 9, 5⟩, ⟨"y", 8, 2⟩], 2⟩ : SimpleCache Nat).entries, e.cnt ≤ e2.cnt) ∧
      ((⟨[⟨"x", 9, 5⟩, ⟨"y", 8, 2⟩], 2⟩ : SimpleCache Nat).set "z" 7).entries
        = cacheInsert ((⟨[⟨"x", 9, 5⟩, ⟨"y", 8, 2⟩], 2⟩ :
            SimpleCache Nat).entries.eraseP (fun e => e.key == k0)) "z" 7) ∧
    (∀ c2 : SimpleCache Nat, (c2.set "z" 7).entries.find? (fun e => e.key == "z")
        = some (⟨"z", 7, 0⟩ : CEntry Nat)) :=
  bounded_cache_lru 2 ("a", 1) ("c", 3) [("b", 2)] (by decide) (by decide)
    (⟨[⟨"x", 9, 5⟩, ⟨"y", 8, 2⟩], 2⟩ : SimpleCache Nat) "z" 7
    ⟨"x", 9, 5⟩ [⟨"y", 8, 2⟩] (by decide) (by decide)

/-- A sequence of `add_message` calls for one session key, returning the
final store and the number of accepted (true-returning) calls. -/
def runAppends (st : Store) (id : String) : List Message → Store × Nat
  | [] => (st, 0)
  | m :: ms =>
    let r := addMessage st id m
    let rest := runAppends r.2 id ms
    (rest.1, (if r.1 then 1 else 0) + rest.2)

theorem getSession_kvSet (st : Store) (id : String) (s : SessionData) :
    getSession (kvSet st (getKey id) s) id = some s := by
  simp [getSession, kvSet, List.find?]

theorem runAppends_spec (ms : List Message) (st : Store) (id : String) (s : SessionData)
    (hs : getSession st id = some s) :
    (runAppends st id ms).2 = ms.length ∧
      getSession (runAppends st id ms).1 id
        = some { s with conversation_history := s.conversation_history ++ ms,
                        message_count := s.message_count + ms.length } := by
  induction ms generalizing st s with
  | nil => simp [runAppends, hs]
  | cons m t ih =>
    have hadd : addMessage st id m
        = (true, kvSet st (getKey id)
            { s with conversation_history := s.conversation_history ++ [m],
                     message_count := s.message_count + 1 }) := by
      simp [addMessage, updateSession, hs]
    have hnext := getSession_kvSet st id
      { s with conversation_history := s.conversation_history ++ [m],
               message_count := s.message_count + 1 }
    have hrec := ih _ _ hnext
    constructor
    · simp [runAppends, hadd, hrec.1]
      omega
    · have h2 := hrec.2
      simp only [runAppends, hadd]
      rw [h2]
      simp [List.append_assoc]
      omega

/-- Claim C8: each mutating session operation on an absent key returns false
and leaves the store unchanged; and on a freshly created session, the
metrics' totalMessages equals the number of accepted add_message calls
(every such call on the existing session is accepted). -/
theorem session_store_contract (st : Store) (id : String) (m : Message)
    (intel : ExtractedIntelligence) (note : String) (habs : getSession st id = none)
    (st0 : Store) (sid : String) (scam : Bool) (stype : String) (now now2 : Nat)
    (ms : List Message) :
    (addMessage st id m = (false, st) ∧
      addIntelligence st id intel = (false, st) ∧
      addAgentNote st id note = (false, st)) ∧
    ((runAppends (createSession st0 sid scam stype now).2 sid ms).2 = ms.length ∧
      getMetrics (runAppends (createSession st0 sid scam stype now).2 sid ms).1 sid now2
        = some { engagementDurationSeconds := now2 - now
                 totalMessagesExchanged :=
                   (runAppends (createSession st0 sid scam stype now).2 sid ms).2 }) := by
  refine ⟨⟨?_, ?_, ?_⟩, ?_⟩
  · simp [addMessage, habs]
  · simp [addIntelligence, habs]
  · simp [addAgentNote, habs]
  · have hcreated : getSession (createSession st0 sid scam stype now).2 sid
        = some (createSession st0 sid scam stype now).1 := by
      simp [createSession]
      exact getSession_kvSet st0 sid _
    have hspec := runAppends_spec ms _ sid _ hcreated
    refine ⟨hspec.1, ?_⟩
    unfold getMetrics
    rw [hspec.2, hspec.1]
    simp [createSession]

/-- Witness for C8: a concrete empty store (absent key) and a concrete
two-message run on a created session. -/
theorem session_store_contract_witness :
    (addMessage [] "nosuch" { sender := "scammer", text := "hi", timestamp := "t0" }
        = (false, []) ∧
      addIntelligence [] "nosuch" emptyIntel = (false, []) ∧
      addAgentNote [] "nosuch" "note" = (false, [])) ∧
    ((runAppends (createSession [] "s1" true "bank_fraud" 5).2 "s1"
        [{ sender := "scammer", text := "a", timestamp := "t1" },
         { sender := "user", text := "b", timestamp := "t2" }]).2 = 2 ∧
      getMetrics (runAppends (createSession [] "s1" true "bank_fraud" 5).2 "s1"
          [{ sender := "scammer", text := "a", timestamp := "t1" },
           { sender := "user", text := "b", timestamp := "t2" }]).1 "s1" 12
        = some { engagementDurationSeconds := 7
                 totalMessagesExchanged :=
                   (runAppends (createSession [] "s1" true "bank_fraud" 5).2 "s1"
                     [{ sender := "scammer", text := "a", timestamp := "t1" },
                      { sender := "user", text := "b", timestamp := "t2" }]).2 }) :=
  session_store_contract [] "nosuch"
    { sender := "scammer", text := "hi", timestamp := "t0" } emptyIntel "note"
    (by decide) [] "s1" true "bank_fraud" 5 12
    [{ sender := "scammer", text := "a", timestamp := "t1" },
     { sender := "user", text := "b", timestamp := "t2" }]

/-- Invariant of claim C9 on one session record. -/
def SessionInv (s : SessionData) : Prop :=
  s.message_count = s.conversation_history.length

/-- Invariant of claim C9 over the whole store. -/
def StoreInv (st : Store) : Prop := ∀ p ∈ st, SessionInv p.2

theorem StoreInv_kvSet {st : Store} (h : StoreInv st) {v : SessionData}
    (hv : SessionInv v) (k : String) : StoreInv (kvSet st k v) := by
  intro p hp
  rcases List.mem_cons.mp hp with rfl | hp2
  · exact hv
  · exact h p (List.mem_of_mem_eraseP hp2)

theorem getSession_inv {st : Store} (h : StoreInv st) {id : String} {s : SessionData}
    (hg : getSession st id = some s) : SessionInv s := by
  unfold getSession at hg
  cases hf : st.find? (fun p => p.1 == getKey id) with
  | none => rw [hf] at hg; simp at hg
  | some p =>
    rw [hf] at hg
    simp at hg
    exact hg ▸ h p (List.mem_of_find?_eq_some hf)

/-- Claim C9: the invariant "message_count equals the transcript length"
holds for a freshly created session (both zero) and is preserved across the
store by create, add_message (one message appended, count incremented by
one), add_intelligence and add_agent_note (neither field changed). -/
theorem message_count_invariant (st : Store) (id : String) (scam : Bool) (stype : String)
    (now : Nat) (m : Message) (intel : ExtractedIntelligence) (note : String)
    (hInv : StoreInv st) :
    SessionInv (createSession st id scam stype now).1 ∧
    StoreInv (createSession st id scam stype now).2 ∧
    StoreInv (addMessage st id m).2 ∧
    StoreInv (addIntelligence st id intel).2 ∧
    StoreInv (addAgentNote st id note).2 := by
  have hcre : SessionInv (createSession st id scam stype now).1 := by
    simp [SessionInv, createSession]
  refine ⟨hcre, StoreInv_kvSet hInv hcre _, ?_, ?_, ?_⟩
  · cases hs : getSession st id with
    | none => simpa [addMessage, hs] using hInv
    | some s =>
      have hsi := getSession_inv hInv hs
      have : SessionInv
          { s with conversation_history := s.conversation_history ++ [m],
                   message_count := s.message_count + 1 } := by
        simp [SessionInv] at hsi ⊢
        omega
      simpa [addMessage, updateSession, hs] using StoreInv_kvSet hInv this _
  · cases hs : getSession st id with
    | none => simpa [addIntelligence, hs] using hInv
    | some s =>
      have hsi := getSession_inv hInv hs
      have : SessionInv
          { s with extracted_intelligence :=
              mergeIntelligence s.extracted_intelligence intel } := hsi
      simpa [addIntelligence, updateSession, hs] using StoreInv_kvSet hInv this _
  · cases hs : getSession st id with
    | none => simpa [addAgentNote, hs] using hInv
    | some s =>
      have hsi := getSession_inv hInv hs
      have : SessionInv { s with agent_notes := s.agent_notes ++ [note] } := hsi
      simpa [addAgentNote, updateSession, hs] using StoreInv_kvSet hInv this _

/-- Witness for C9: the invariant conclusions at a concrete store holding
one session, with concrete operation arguments. -/
theorem message_count_invariant_witness :
    SessionInv (createSession [(getKey "s0",
        { session_id := "s0", start_time := 0, scam_detected := true
          scam_type := "upi_scam", conversation_history := []
          extracted_intelligence := emptyIntel, message_count := 0
          agent_notes := [] })] "s0" false "unknown" 3).1 ∧
    StoreInv (createSession [(getKey "s0",
        { session_id := "s0", start_time := 0, scam_detected := true
          scam_type := "upi_scam", conversation_history := []
          extracted_intelligence := emptyIntel, message_count := 0
          agent_notes := [] })] "s0" false "unknown" 3).2 ∧
    StoreInv (addMessage [(getKey "s0",
        { session_id := "s0", start_time := 0, scam_detected := true
          scam_type := "upi_scam", conversation_history := []
          extracted_intelligence := emptyIntel, message_count := 0
          agent_notes := [] })] "s0" { sender := "scammer", text := "x", timestamp := "t" }).2 ∧
    StoreInv (addIntelligence [(getKey "s0",
        { session_id := "s0", start_time := 0, scam_detected := true
          scam_type := "upi_scam", conversation_history := []
          extracted_intelligence := emptyIntel, message_count := 0
          agent_notes := [] })] "s0" emptyIntel).2 ∧
    StoreInv (addAgentNote [(getKey "s0",
        { session_id := "s0", start_time := 0, scam_detected := true
          scam_type := "upi_scam", conversation_history := []
          extracted_intelligence := emptyIntel, message_count := 0
          agent_notes := [] })] "s0" "note").2 :=
  message_count_invariant [(getKey "s0",
      { session_id := "s0", start_time := 0, scam_detected := true
        scam_type := "upi_scam", conversation_history := []
        extracted_intelligence := emptyIntel, message_count := 0
        agent_notes := [] })] "s0" false "unknown" 3
    { sender := "scammer", text := "x", timestamp := "t" } emptyIntel "note"
    (by intro p hp; simp at hp; subst hp; rfl)

theorem bank_match_all_digits {msg v : String} (hv : v ∈ bankAccountMatches msg) :
    v.toList.all Char.isDigit = true := by
  have h := (List.mem_filter.mp hv).2
  have h1 := ((Bool.and_eq_true _ _).mp h).1
  exact ((Bool.and_eq_true _ _).mp h1).1

/-- Claim C3 counterexample: the 9-digit sequence 123456789 is matched by the
bank-account pattern of the message but the phone-collision filter
(`len(acc) > 10`) drops it, so it does not appear in the bankAccounts
output. -/
theorem nine_digit_account_counterexample :
    "123456789" ∈ bankAccountMatches "Send to account 123456789 now" ∧
      "123456789" ∉ extractBankAccounts "Send to account 123456789 now" := by
  decide

/-- Claim C3 amended: of the matched 9-to-18-digit sequences, the pattern
pass's bankAccounts output keeps exactly those longer than 10 digits — both
9-digit and 10-digit sequences are excluded, not only the 10-digit phone
collisions. -/
theorem bank_filter_characterisation (msg : String) (v : String)
    (hv : v ∈ bankAccountMatches msg) :
    v ∈ extractBankAccounts msg ↔ 11 ≤ v.length := by
  have hdig := bank_match_all_digits hv
  constructor
  · intro hmem
    rcases List.mem_append.mp hmem with hl | hr
    · have h2 := (List.mem_filter.mp hl).2
      simp at h2
      omega
    · exfalso
      rcases List.mem_map.mp hr with ⟨i, hi, hvi⟩
      rw [← hvi] at hdig
      simp [String.toList, String.data_append] at hdig
  · intro hlen
    apply List.mem_append_left
    rw [List.mem_filter]
    refine ⟨hv, by simp; omega⟩

/-- Witness for C3 amended: an 11-digit sequence is matched and kept. -/
theorem bank_filter_characterisation_witness :
    "12345678901" ∈ bankAccountMatches "acct 12345678901 today" ∧
      "12345678901" ∈ extractBankAccounts "acct 12345678901 today" :=
  ⟨by decide,
   (bank_filter_characterisation "acct 12345678901 today" "12345678901"
     (by decide)).mpr (by decide)⟩

/-- Message of end-to-end scenario 1 (§8 of the specification). -/
def scenarioOneMessage : String :=
  "Your account will be blocked. Verify by sending ₹100 to verify@upi"

/-- Claim C4 counterexample: on the scenario-1 message the pattern pass does
not output `upiIds = ["verify@upi"]` — the provider allow-list filter removes
the match, leaving the upiIds output empty. -/
theorem scenario_one_upi_counterexample :
    extractUpiIds scenarioOneMessage ≠ ["verify@upi"] := by decide

/-- Claim C4 amended: on the scenario-1 message the raw `upi_id` regex does
match `verify@upi`, but the provider filter of `_extract_with_regex` removes
it (no known provider occurs in it), so the pattern pass's upiIds output is
empty; the keyword matches do include "blocked" and "verify"; and the merged
upiIds category (pattern pass merged with an empty generative pass) is
empty, so it does not contain `verify@upi` at any confidence. -/
theorem scenario_one_extraction :
    upiMatches scenarioOneMessage = ["verify@upi"] ∧
      extractUpiIds scenarioOneMessage = [] ∧
      "blocked" ∈ extractKeywords scenarioOneMessage ∧
      "verify" ∈ extractKeywords scenarioOneMessage ∧
      (mergeIntelligence { emptyIntel with upiIds := extractUpiIds scenarioOneMessage }
          emptyIntel).upiIds = [] := by
  decide

end Honeypot
